import Mathlib

/-!
Verification of the EPG combiner (`combine_epg.py`).

The program fetches XMLTV documents from several sources, merges them into
one deduplicated `tv` tree and writes the result to a file.  We embed the
data model and the three functions `fetch_epg`, `combine_epg_files` and
`write_xml` shallowly:

* XML elements become the inductive type `Element` (tag, attributes as an
  association list in document order, text, children, tail), mirroring
  `xml.etree.ElementTree` elements as far as the program inspects them.
* A fetch result becomes `FetchResult`, the `(name, root, error)` triple
  returned by `fetch_epg`.
* The merge loop of `combine_epg_files` (source lines 129-159) becomes a
  fold over the list of fetch results in completion order; the
  nondeterministic completion order of the thread pool is captured by
  quantifying over permutations of that list.
-/

/-- An XML element as seen by the program: tag, attributes in document
order, text, children in document order, and tail text (the text that
follows the element), matching `xml.etree.ElementTree.Element`. -/
inductive Element : Type where
  | mk : String → List (String × String) → String → List Element → String → Element


def Element.tag : Element → String
  | .mk t _ _ _ _ => t

def Element.attrs : Element → List (String × String)
  | .mk _ a _ _ _ => a

def Element.text : Element → String
  | .mk _ _ x _ _ => x

def Element.children : Element → List Element
  | .mk _ _ _ c _ => c

def Element.tail : Element → String
  | .mk _ _ _ _ x => x

/-- Look up an attribute: the first binding of `key` in the attribute
list, if any (`element.attrib[key]` presence). -/
def Element.lookupAttr (e : Element) (key : String) : Option String :=
  (e.attrs.find? (fun kv => kv.1 == key)).map (fun kv => kv.2)

/-- `element.get(key, default)`: the attribute value, or `default` when
the attribute is missing. -/
def Element.get (e : Element) (key dflt : String) : String :=
  match e.lookupAttr key with
  | some v => v
  | none => dflt

/-- `root.findall(tag)`: the direct children whose tag is `tag`, in
document order. -/
def Element.findall (e : Element) (t : String) : List Element :=
  e.children.filter (fun c => c.tag == t)

/-- The `(name, root, error)` triple returned by `fetch_epg`: on success
`(name, some root, none)`, on any caught exception `(name, none, some msg)`. -/
structure FetchResult : Type where
  name : String
  root : Option Element
  error : Option String


/-- Python truthiness of the `error` slot as tested by `if error:` on
line 132: `None` and the empty string are falsy. -/
def errorTruthy (r : FetchResult) : Bool :=
  match r.error with
  | some e => e != ""
  | none => false

/-- The mutable state of the merge loop in `combine_epg_files`:
the children appended to the `combined` tree so far (channels and
programmes share this one sequence), the two seen-key sets (modelled as
lists grown at the end, so membership and cardinality are faithful), the
two running counters and the failure list. -/
structure MergeState : Type where
  combinedChildren : List Element
  seen_channels : List String
  seen_programmes : List (String × String × String)
  total_channels : Nat
  total_programmes : Nat
  failed_sources : List (String × String)


/-- The channel identity key: `channel.get('id', '')` (line 141). -/
def chanKey (e : Element) : String :=
  e.get "id" ""

/-- The programme identity key: the triple
`(programme.get('channel',''), programme.get('start',''), programme.get('stop',''))`
(lines 150-154); missing attributes default to the empty string. -/
def progKey (e : Element) : String × String × String :=
  (e.get "channel" "", e.get "start" "", e.get "stop" "")

/-- One iteration of the channel loop (lines 140-145): append the channel
and mark its id seen when the id is non-empty and unseen, else drop it. -/
def addChannel (st : MergeState) (channel : Element) : MergeState :=
  let channel_id := channel.get "id" ""
  if channel_id ≠ "" ∧ channel_id ∉ st.seen_channels then
    { st with
      seen_channels := st.seen_channels ++ [channel_id]
      combinedChildren := st.combinedChildren ++ [channel]
      total_channels := st.total_channels + 1 }
  else st

/-- One iteration of the programme loop (lines 148-159): append the
programme and mark its key seen when the key is unseen, else drop it. -/
def addProgramme (st : MergeState) (programme : Element) : MergeState :=
  let prog_key := progKey programme
  if prog_key ∉ st.seen_programmes then
    { st with
      seen_programmes := st.seen_programmes ++ [prog_key]
      combinedChildren := st.combinedChildren ++ [programme]
      total_programmes := st.total_programmes + 1 }
  else st

/-- The body of the `as_completed` loop (lines 129-159) for one fetch
result: a truthy error records the failure and contributes nothing; a
missing root contributes nothing; otherwise the channels of the document
are folded in first, then its programmes. -/
def processResult (st : MergeState) (r : FetchResult) : MergeState :=
  if errorTruthy r then
    { st with failed_sources := st.failed_sources ++ [(r.name, r.error.getD "")] }
  else
    match r.root with
    | none => st
    | some root =>
        (root.findall "programme").foldl addProgramme
          ((root.findall "channel").foldl addChannel st)

/-- The merge state before any result is processed (lines 113-118). -/
def initState : MergeState :=
  { combinedChildren := []
    seen_channels := []
    seen_programmes := []
    total_channels := 0
    total_programmes := 0
    failed_sources := [] }

/-- The merge performed by `combine_epg_files`: fold the fetch results,
in the order they complete, into the merge state. -/
def combine_epg_files (results : List FetchResult) : MergeState :=
  results.foldl processResult initState

/-- The attributes stamped on the `combined` root element at merge start
(lines 107-110); `date` is the UTC timestamp string. -/
def combinedRoot (date : String) (st : MergeState) : Element :=
  .mk "tv"
    [("generator-info-name", "CouchStreaming EPG Combiner"),
     ("generator-info-url", "https://github.com/globetvapp/epg"),
     ("date", date)]
    "" st.combinedChildren ""

/-- What a fetch attempt runs into, as distinguished by the `try`/`except`
arms of `fetch_epg` (lines 69-101): a `URLError`/`HTTPError` raised during
open or read, any other exception raised before the response body is
available (e.g. a malformed or empty locator), or a response body together
with its `Content-Encoding` header. -/
inductive FetchEvent : Type where
  | urlError (msg : String)
  | otherException (msg : String)
  | response (body : List Nat) (contentEncoding : Option String)

/-- The outcome of `ET.fromstring` (line 85) turned into a result: a
parse error is caught by the `except ET.ParseError` arm and becomes an
error result, a parsed tree becomes the success result of line 91. -/
def fetchParsed (name : String) (parsed : Except String Element) : FetchResult :=
  match parsed with
  | .error msg => { name := name, root := none, error := some msg }
  | .ok root => { name := name, root := some root, error := none }

/-- Parsing of the (possibly decompressed) response bytes, lines 85-91
and the two `except` arms that catch its failures: a decompression error
becomes an error result (caught by `except Exception`), otherwise the
bytes are parsed. -/
def fetchParse (parseXML : List Nat → Except String Element)
    (name : String) (data : Except String (List Nat)) : FetchResult :=
  match data with
  | .error msg => { name := name, root := none, error := some msg }
  | .ok bytes => fetchParsed name (parseXML bytes)

/-- `fetch_epg` (lines 67-101).  `gunzip` models `gzip.decompress` and
`parseXML` models `ET.fromstring`; each returns an error message in place
of raising, mirroring that the corresponding Python exceptions are all
caught inside `fetch_epg` (`gzip` errors by the `except Exception` arm,
parse errors by the `except ET.ParseError` arm).  The body is
decompressed when the locator ends in `.gz` or the response carries a
gzip `Content-Encoding` header (line 81).  Totality of this function
models that `fetch_epg` never propagates an exception. -/
def fetch_epg (gunzip : List Nat → Except String (List Nat))
    (parseXML : List Nat → Except String Element)
    (name url : String) (ev : FetchEvent) : FetchResult :=
  match ev with
  | .urlError msg => { name := name, root := none, error := some msg }
  | .otherException msg => { name := name, root := none, error := some msg }
  | .response body enc =>
      fetchParse parseXML name
        (if url.endsWith ".gz" || enc == some "gzip" then gunzip body
         else Except.ok body)

/-- `xml.etree.ElementTree`'s `_escape_cdata`, applied to text and tails. -/
def escapeCdata (s : String) : String :=
  ((s.replace "&" "&amp;").replace "<" "&lt;").replace ">" "&gt;"

/-- `xml.etree.ElementTree`'s `_escape_attrib`, applied to attribute values. -/
def escapeAttrib (s : String) : String :=
  ((((((s.replace "&" "&amp;").replace "<" "&lt;").replace ">"
    "&gt;").replace "\"" "&quot;").replace "\r" "&#13;").replace "\n"
    "&#10;").replace "\t" "&#09;"

/-- The serialized attribute list: ` key="value"` for each attribute in
document order. -/
def serializeAttrs (attrs : List (String × String)) : String :=
  String.join (attrs.map (fun kv => " " ++ kv.1 ++ "=\"" ++ escapeAttrib kv.2 ++ "\""))

/-- `ET.tostring(root, encoding='unicode')` (line 178): the recursive XML
serialization of an element — open tag with attributes, then (unless the
element has neither text nor children) escaped text, serialized children
in order and the close tag, then the escaped tail. -/
def Element.serialize : Element → String
  | .mk tag attrs text children tail =>
      "<" ++ tag ++ serializeAttrs attrs ++
        (if text.isEmpty && children.isEmpty then " />"
         else ">" ++ escapeCdata text ++
           String.join (children.attach.map (fun c => Element.serialize c.1)) ++
           "</" ++ tag ++ ">") ++
        escapeCdata tail
  decreasing_by
    simp only [Element.mk.sizeOf_spec]
    have h := List.sizeOf_lt_of_mem c.2
    omega

/-- The three writes `write_xml` performs on the output file, in order
(lines 180-183): the fixed XML declaration line, the fixed DOCTYPE line
referencing the XMLTV document type, and the serialized element tree. -/
def write_xml_writes (root : Element) : List String :=
  ["<?xml version=\"1.0\" encoding=\"UTF-8\"?>\n",
   "<!DOCTYPE tv SYSTEM \"xmltv.dtd\">\n",
   root.serialize]

/-- The resulting file content: the writes concatenated in order. -/
def write_xml (root : Element) : String :=
  String.join (write_xml_writes root)

/-! ### Shape lemmas for the two per-element steps -/

theorem addChannel_eq (st : MergeState) (e : Element) :
    addChannel st e =
      if chanKey e ≠ "" ∧ chanKey e ∉ st.seen_channels then
        { st with
          seen_channels := st.seen_channels ++ [chanKey e]
          combinedChildren := st.combinedChildren ++ [e]
          total_channels := st.total_channels + 1 }
      else st := rfl

theorem addProgramme_eq (st : MergeState) (e : Element) :
    addProgramme st e =
      if progKey e ∉ st.seen_programmes then
        { st with
          seen_programmes := st.seen_programmes ++ [progKey e]
          combinedChildren := st.combinedChildren ++ [e]
          total_programmes := st.total_programmes + 1 }
      else st := rfl

theorem addChannel_neg (st : MergeState) (e : Element)
    (h : chanKey e = "" ∨ chanKey e ∈ st.seen_channels) :
    addChannel st e = st := by
  rw [addChannel_eq, if_neg]
  rcases h with h | h
  · exact fun hc => hc.1 h
  · exact fun hc => hc.2 h

theorem addProgramme_neg (st : MergeState) (e : Element)
    (h : progKey e ∈ st.seen_programmes) :
    addProgramme st e = st := by
  rw [addProgramme_eq, if_neg (not_not_intro h)]

theorem addChannel_seen_programmes (st : MergeState) (e : Element) :
    (addChannel st e).seen_programmes = st.seen_programmes := by
  rw [addChannel_eq]; split <;> rfl

theorem addChannel_total_programmes (st : MergeState) (e : Element) :
    (addChannel st e).total_programmes = st.total_programmes := by
  rw [addChannel_eq]; split <;> rfl

theorem addChannel_failed_sources (st : MergeState) (e : Element) :
    (addChannel st e).failed_sources = st.failed_sources := by
  rw [addChannel_eq]; split <;> rfl

theorem addProgramme_seen_channels (st : MergeState) (e : Element) :
    (addProgramme st e).seen_channels = st.seen_channels := by
  rw [addProgramme_eq]; split <;> rfl

theorem addProgramme_total_channels (st : MergeState) (e : Element) :
    (addProgramme st e).total_channels = st.total_channels := by
  rw [addProgramme_eq]; split <;> rfl

theorem addProgramme_failed_sources (st : MergeState) (e : Element) :
    (addProgramme st e).failed_sources = st.failed_sources := by
  rw [addProgramme_eq]; split <;> rfl

theorem addChannel_mem_seen (st : MergeState) (e : Element) (x : String) :
    x ∈ (addChannel st e).seen_channels ↔
      x ∈ st.seen_channels ∨ (x ≠ "" ∧ chanKey e = x) := by
  rw [addChannel_eq]
  split
  next h =>
    simp only [List.mem_append, List.mem_singleton]
    constructor
    · rintro (hx | rfl)
      · exact Or.inl hx
      · exact Or.inr ⟨h.1, rfl⟩
    · rintro (hx | ⟨-, rfl⟩)
      · exact Or.inl hx
      · exact Or.inr rfl
  next h =>
    constructor
    · exact Or.inl
    · rintro (hx | ⟨hne, rfl⟩)
      · exact hx
      · rcases not_and_or.mp h with h1 | h1
        · exact absurd (not_not.mp h1) hne
        · exact not_not.mp h1

theorem addProgramme_mem_seen (st : MergeState) (e : Element)
    (k : String × String × String) :
    k ∈ (addProgramme st e).seen_programmes ↔
      k ∈ st.seen_programmes ∨ progKey e = k := by
  rw [addProgramme_eq]
  split
  next h =>
    simp only [List.mem_append, List.mem_singleton]
    exact or_congr Iff.rfl eq_comm
  next h =>
    constructor
    · exact Or.inl
    · rintro (hk | rfl)
      · exact hk
      · exact not_not.mp h

theorem addChannel_children (st : MergeState) (e : Element) :
    (addChannel st e).combinedChildren = st.combinedChildren ∨
    (addChannel st e).combinedChildren = st.combinedChildren ++ [e] := by
  rw [addChannel_eq]; split
  · exact Or.inr rfl
  · exact Or.inl rfl

theorem addProgramme_children (st : MergeState) (e : Element) :
    (addProgramme st e).combinedChildren = st.combinedChildren ∨
    (addProgramme st e).combinedChildren = st.combinedChildren ++ [e] := by
  rw [addProgramme_eq]; split
  · exact Or.inr rfl
  · exact Or.inl rfl

/-! ### Fold lemmas for the channel and programme loops -/

theorem foldl_addChannel_seen_programmes (l : List Element) (st : MergeState) :
    (l.foldl addChannel st).seen_programmes = st.seen_programmes := by
  induction l generalizing st with
  | nil => rfl
  | cons e l ih => rw [List.foldl_cons, ih, addChannel_seen_programmes]

theorem foldl_addChannel_total_programmes (l : List Element) (st : MergeState) :
    (l.foldl addChannel st).total_programmes = st.total_programmes := by
  induction l generalizing st with
  | nil => rfl
  | cons e l ih => rw [List.foldl_cons, ih, addChannel_total_programmes]

theorem foldl_addChannel_failed_sources (l : List Element) (st : MergeState) :
    (l.foldl addChannel st).failed_sources = st.failed_sources := by
  induction l generalizing st with
  | nil => rfl
  | cons e l ih => rw [List.foldl_cons, ih, addChannel_failed_sources]

theorem foldl_addProgramme_seen_channels (l : List Element) (st : MergeState) :
    (l.foldl addProgramme st).seen_channels = st.seen_channels := by
  induction l generalizing st with
  | nil => rfl
  | cons e l ih => rw [List.foldl_cons, ih, addProgramme_seen_channels]

theorem foldl_addProgramme_total_channels (l : List Element) (st : MergeState) :
    (l.foldl addProgramme st).total_channels = st.total_channels := by
  induction l generalizing st with
  | nil => rfl
  | cons e l ih => rw [List.foldl_cons, ih, addProgramme_total_channels]

theorem foldl_addProgramme_failed_sources (l : List Element) (st : MergeState) :
    (l.foldl addProgramme st).failed_sources = st.failed_sources := by
  induction l generalizing st with
  | nil => rfl
  | cons e l ih => rw [List.foldl_cons, ih, addProgramme_failed_sources]

theorem foldl_addChannel_mem_seen (l : List Element) (st : MergeState) (x : String) :
    x ∈ (l.foldl addChannel st).seen_channels ↔
      x ∈ st.seen_channels ∨ (x ≠ "" ∧ ∃ e ∈ l, chanKey e = x) := by
  induction l generalizing st with
  | nil => simp
  | cons e l ih =>
      rw [List.foldl_cons, ih, addChannel_mem_seen]
      simp only [List.mem_cons]
      constructor
      · rintro ((hx | ⟨hne, he⟩) | ⟨hne, e', he', hx⟩)
        · exact Or.inl hx
        · exact Or.inr ⟨hne, e, Or.inl rfl, he⟩
        · exact Or.inr ⟨hne, e', Or.inr he', hx⟩
      · rintro (hx | ⟨hne, e', rfl | he', hx⟩)
        · exact Or.inl (Or.inl hx)
        · exact Or.inl (Or.inr ⟨hne, hx⟩)
        · exact Or.inr ⟨hne, e', he', hx⟩

theorem foldl_addProgramme_mem_seen (l : List Element) (st : MergeState)
    (k : String × String × String) :
    k ∈ (l.foldl addProgramme st).seen_programmes ↔
      k ∈ st.seen_programmes ∨ ∃ e ∈ l, progKey e = k := by
  induction l generalizing st with
  | nil => simp
  | cons e l ih =>
      rw [List.foldl_cons, ih, addProgramme_mem_seen]
      simp only [List.mem_cons]
      constructor
      · rintro ((hk | he) | ⟨e', he', hk⟩)
        · exact Or.inl hk
        · exact Or.inr ⟨e, Or.inl rfl, he⟩
        · exact Or.inr ⟨e', Or.inr he', hk⟩
      · rintro (hk | ⟨e', rfl | he', hk⟩)
        · exact Or.inl (Or.inl hk)
        · exact Or.inl (Or.inr hk)
        · exact Or.inr ⟨e', he', hk⟩

theorem foldl_addChannel_noop : ∀ (l : List Element) (st : MergeState),
    (∀ e ∈ l, chanKey e = "" ∨ chanKey e ∈ st.seen_channels) →
    l.foldl addChannel st = st
  | [], _, _ => rfl
  | e :: l, st, h => by
      rw [List.foldl_cons, addChannel_neg st e (h e (List.mem_cons_self e l))]
      exact foldl_addChannel_noop l st (fun e' he' => h e' (List.mem_cons_of_mem _ he'))

theorem foldl_addProgramme_noop : ∀ (l : List Element) (st : MergeState),
    (∀ e ∈ l, progKey e ∈ st.seen_programmes) →
    l.foldl addProgramme st = st
  | [], _, _ => rfl
  | e :: l, st, h => by
      rw [List.foldl_cons, addProgramme_neg st e (h e (List.mem_cons_self e l))]
      exact foldl_addProgramme_noop l st (fun e' he' => h e' (List.mem_cons_of_mem _ he'))

theorem foldl_addChannel_children (l : List Element) (st : MergeState) :
    ∃ new, (l.foldl addChannel st).combinedChildren = st.combinedChildren ++ new ∧
      ∀ e ∈ new, e ∈ l := by
  induction l generalizing st with
  | nil => exact ⟨[], by simp⟩
  | cons e l ih =>
      rw [List.foldl_cons]
      obtain ⟨new, hnew, hmem⟩ := ih (addChannel st e)
      rcases addChannel_children st e with hc | hc
      · exact ⟨new, by rw [hnew, hc], fun e' he' => List.mem_cons_of_mem _ (hmem e' he')⟩
      · refine ⟨e :: new, ?_, ?_⟩
        · rw [hnew, hc, List.append_assoc, List.singleton_append]
        · intro e' he'
          rcases List.mem_cons.mp he' with rfl | he'
          · exact List.mem_cons_self _ _
          · exact List.mem_cons_of_mem _ (hmem e' he')

theorem foldl_addProgramme_children (l : List Element) (st : MergeState) :
    ∃ new, (l.foldl addProgramme st).combinedChildren = st.combinedChildren ++ new ∧
      ∀ e ∈ new, e ∈ l := by
  induction l generalizing st with
  | nil => exact ⟨[], by simp⟩
  | cons e l ih =>
      rw [List.foldl_cons]
      obtain ⟨new, hnew, hmem⟩ := ih (addProgramme st e)
      rcases addProgramme_children st e with hc | hc
      · exact ⟨new, by rw [hnew, hc], fun e' he' => List.mem_cons_of_mem _ (hmem e' he')⟩
      · refine ⟨e :: new, ?_, ?_⟩
        · rw [hnew, hc, List.append_assoc, List.singleton_append]
        · intro e' he'
          rcases List.mem_cons.mp he' with rfl | he'
          · exact List.mem_cons_self _ _
          · exact List.mem_cons_of_mem _ (hmem e' he')

/-! ### The merge invariant -/

/-- The channel elements of a child sequence. -/
def channelsOf (l : List Element) : List Element :=
  l.filter (fun e => e.tag == "channel")

/-- The programme elements of a child sequence. -/
def programmesOf (l : List Element) : List Element :=
  l.filter (fun e => e.tag == "programme")

theorem channelsOf_append (l₁ l₂ : List Element) :
    channelsOf (l₁ ++ l₂) = channelsOf l₁ ++ channelsOf l₂ := by
  simp [channelsOf]

theorem programmesOf_append (l₁ l₂ : List Element) :
    programmesOf (l₁ ++ l₂) = programmesOf l₁ ++ programmesOf l₂ := by
  simp [programmesOf]

theorem channelsOf_channel (e : Element) (h : e.tag = "channel") :
    channelsOf [e] = [e] := by
  simp [channelsOf, List.filter, h]

theorem programmesOf_channel (e : Element) (h : e.tag = "channel") :
    programmesOf [e] = [] := by
  simp [programmesOf, List.filter, h]

theorem channelsOf_programme (e : Element) (h : e.tag = "programme") :
    channelsOf [e] = [] := by
  simp [channelsOf, List.filter, h]

theorem programmesOf_programme (e : Element) (h : e.tag = "programme") :
    programmesOf [e] = [e] := by
  simp [programmesOf, List.filter, h]

theorem mem_findall_tag (root : Element) (t : String) (e : Element)
    (he : e ∈ root.findall t) : e.tag = t := by
  have := (List.mem_filter.mp he).2
  simpa using this

/-- The invariant that the merge loop maintains: the channel keys of the
appended children, in order, are exactly the seen-channel set (as a list),
likewise for programmes; both seen sets are duplicate-free; and the two
counters equal the sizes of the seen sets. -/
def MergeInv (st : MergeState) : Prop :=
  (channelsOf st.combinedChildren).map chanKey = st.seen_channels ∧
  (programmesOf st.combinedChildren).map progKey = st.seen_programmes ∧
  st.seen_channels.Nodup ∧ st.seen_programmes.Nodup ∧
  st.total_channels = st.seen_channels.length ∧
  st.total_programmes = st.seen_programmes.length

theorem mergeInv_init : MergeInv initState :=
  ⟨rfl, rfl, List.nodup_nil, List.nodup_nil, rfl, rfl⟩

theorem mergeInv_addChannel (st : MergeState) (e : Element)
    (htag : e.tag = "channel") (h : MergeInv st) : MergeInv (addChannel st e) := by
  obtain ⟨hc, hp, hnc, hnp, htc, htp⟩ := h
  rw [addChannel_eq]
  split
  next hcond =>
    refine ⟨?_, ?_, ?_, hnp, ?_, htp⟩
    · show (channelsOf (st.combinedChildren ++ [e])).map chanKey
        = st.seen_channels ++ [chanKey e]
      rw [channelsOf_append, List.map_append, hc, channelsOf_channel e htag]
      rfl
    · show (programmesOf (st.combinedChildren ++ [e])).map progKey = st.seen_programmes
      rw [programmesOf_append, programmesOf_channel e htag, List.append_nil, hp]
    · show (st.seen_channels ++ [chanKey e]).Nodup
      rw [List.nodup_append]
      refine ⟨hnc, List.nodup_singleton _, ?_⟩
      intro x hx hx1
      rw [List.mem_singleton] at hx1
      exact hcond.2 (hx1 ▸ hx)
    · show st.total_channels + 1 = (st.seen_channels ++ [chanKey e]).length
      rw [List.length_append, htc]
      rfl
  next => exact ⟨hc, hp, hnc, hnp, htc, htp⟩

theorem mergeInv_addProgramme (st : MergeState) (e : Element)
    (htag : e.tag = "programme") (h : MergeInv st) : MergeInv (addProgramme st e) := by
  obtain ⟨hc, hp, hnc, hnp, htc, htp⟩ := h
  rw [addProgramme_eq]
  split
  next hcond =>
    refine ⟨?_, ?_, hnc, ?_, htc, ?_⟩
    · show (channelsOf (st.combinedChildren ++ [e])).map chanKey = st.seen_channels
      rw [channelsOf_append, channelsOf_programme e htag, List.append_nil, hc]
    · show (programmesOf (st.combinedChildren ++ [e])).map progKey
        = st.seen_programmes ++ [progKey e]
      rw [programmesOf_append, List.map_append, hp, programmesOf_programme e htag]
      rfl
    · show (st.seen_programmes ++ [progKey e]).Nodup
      rw [List.nodup_append]
      refine ⟨hnp, List.nodup_singleton _, ?_⟩
      intro x hx hx1
      rw [List.mem_singleton] at hx1
      exact hcond (hx1 ▸ hx)
    · show st.total_programmes + 1 = (st.seen_programmes ++ [progKey e]).length
      rw [List.length_append, htp]
      rfl
  next => exact ⟨hc, hp, hnc, hnp, htc, htp⟩

theorem mergeInv_foldl_addChannel : ∀ (l : List Element) (st : MergeState),
    (∀ e ∈ l, e.tag = "channel") → MergeInv st → MergeInv (l.foldl addChannel st)
  | [], _, _, h => h
  | e :: l, st, htags, h =>
      mergeInv_foldl_addChannel l _
        (fun e' he' => htags e' (List.mem_cons_of_mem _ he'))
        (mergeInv_addChannel st e (htags e (List.mem_cons_self e l)) h)

theorem mergeInv_foldl_addProgramme : ∀ (l : List Element) (st : MergeState),
    (∀ e ∈ l, e.tag = "programme") → MergeInv st → MergeInv (l.foldl addProgramme st)
  | [], _, _, h => h
  | e :: l, st, htags, h =>
      mergeInv_foldl_addProgramme l _
        (fun e' he' => htags e' (List.mem_cons_of_mem _ he'))
        (mergeInv_addProgramme st e (htags e (List.mem_cons_self e l)) h)

theorem mergeInv_processResult (st : MergeState) (r : FetchResult)
    (h : MergeInv st) : MergeInv (processResult st r) := by
  obtain ⟨name, root, error⟩ := r
  unfold processResult
  split
  next => exact h
  next =>
    cases root with
    | none => exact h
    | some root =>
        exact mergeInv_foldl_addProgramme _ _
          (fun e he => mem_findall_tag root _ e he)
          (mergeInv_foldl_addChannel _ _
            (fun e he => mem_findall_tag root _ e he) h)

theorem mergeInv_foldl_processResult : ∀ (results : List FetchResult) (st : MergeState),
    MergeInv st → MergeInv (results.foldl processResult st)
  | [], _, h => h
  | r :: rs, st, h =>
      mergeInv_foldl_processResult rs _ (mergeInv_processResult st r h)

theorem mergeInv_combine (results : List FetchResult) :
    MergeInv (combine_epg_files results) :=
  mergeInv_foldl_processResult results initState mergeInv_init

/-! ### Result-level lemmas -/

/-- The channel ids a fetch result contributes to deduplication: none when
its error is truthy or it has no document, else the ids (with empty-string
default) of the document's channel children in order. -/
def resultChannelIds (r : FetchResult) : List String :=
  if errorTruthy r then []
  else
    match r.root with
    | none => []
    | some root => (root.findall "channel").map chanKey

/-- The programme keys a fetch result contributes to deduplication. -/
def resultProgKeys (r : FetchResult) : List (String × String × String) :=
  if errorTruthy r then []
  else
    match r.root with
    | none => []
    | some root => (root.findall "programme").map progKey

theorem processResult_children (st : MergeState) (r : FetchResult) :
    ∃ newC newP,
      (processResult st r).combinedChildren = st.combinedChildren ++ newC ++ newP ∧
      (∀ e ∈ newC, e.tag = "channel") ∧ (∀ e ∈ newP, e.tag = "programme") := by
  obtain ⟨name, root, error⟩ := r
  unfold processResult
  split
  next => exact ⟨[], [], by simp, by simp, by simp⟩
  next =>
    cases root with
    | none => exact ⟨[], [], by simp, by simp, by simp⟩
    | some root =>
        obtain ⟨newC, hC, hCmem⟩ := foldl_addChannel_children (root.findall "channel") st
        obtain ⟨newP, hP, hPmem⟩ :=
          foldl_addProgramme_children (root.findall "programme")
            ((root.findall "channel").foldl addChannel st)
        refine ⟨newC, newP, ?_, ?_, ?_⟩
        · rw [hP, hC]
        · exact fun e he => mem_findall_tag root _ e (hCmem e he)
        · exact fun e he => mem_findall_tag root _ e (hPmem e he)

theorem processResult_children_extends (st : MergeState) (r : FetchResult) :
    ∃ t, (processResult st r).combinedChildren = st.combinedChildren ++ t := by
  obtain ⟨newC, newP, h, -, -⟩ := processResult_children st r
  exact ⟨newC ++ newP, by rw [h, List.append_assoc]⟩

theorem foldl_processResult_children_extends :
    ∀ (results : List FetchResult) (st : MergeState),
    ∃ t, (results.foldl processResult st).combinedChildren = st.combinedChildren ++ t
  | [], st => ⟨[], by simp⟩
  | r :: rs, st => by
      obtain ⟨t1, h1⟩ := processResult_children_extends st r
      obtain ⟨t2, h2⟩ := foldl_processResult_children_extends rs (processResult st r)
      exact ⟨t1 ++ t2, by rw [List.foldl_cons, h2, h1, List.append_assoc]⟩

theorem combine_append (pre suf : List FetchResult) :
    combine_epg_files (pre ++ suf) = suf.foldl processResult (combine_epg_files pre) := by
  rw [combine_epg_files, combine_epg_files, List.foldl_append]

theorem processResult_mem_seen_channels (st : MergeState) (r : FetchResult) (x : String) :
    x ∈ (processResult st r).seen_channels ↔
      x ∈ st.seen_channels ∨ (x ≠ "" ∧ x ∈ resultChannelIds r) := by
  obtain ⟨name, root, error⟩ := r
  unfold processResult resultChannelIds
  split
  next => simp
  next =>
    cases root with
    | none => simp
    | some root =>
        rw [foldl_addProgramme_seen_channels, foldl_addChannel_mem_seen]
        simp only [List.mem_map]

theorem processResult_mem_seen_programmes (st : MergeState) (r : FetchResult)
    (k : String × String × String) :
    k ∈ (processResult st r).seen_programmes ↔
      k ∈ st.seen_programmes ∨ k ∈ resultProgKeys r := by
  obtain ⟨name, root, error⟩ := r
  unfold processResult resultProgKeys
  split
  next => simp
  next =>
    cases root with
    | none => simp
    | some root =>
        rw [foldl_addProgramme_mem_seen, foldl_addChannel_seen_programmes]
        simp only [List.mem_map]

theorem foldl_processResult_mem_seen_channels :
    ∀ (results : List FetchResult) (st : MergeState) (x : String),
    x ∈ (results.foldl processResult st).seen_channels ↔
      x ∈ st.seen_channels ∨ (x ≠ "" ∧ ∃ r ∈ results, x ∈ resultChannelIds r)
  | [], st, x => by simp
  | r :: rs, st, x => by
      rw [List.foldl_cons, foldl_processResult_mem_seen_channels rs _ x,
        processResult_mem_seen_channels]
      simp only [List.mem_cons]
      constructor
      · rintro ((hx | ⟨hne, hx⟩) | ⟨hne, r', hr', hx⟩)
        · exact Or.inl hx
        · exact Or.inr ⟨hne, r, Or.inl rfl, hx⟩
        · exact Or.inr ⟨hne, r', Or.inr hr', hx⟩
      · rintro (hx | ⟨hne, r', rfl | hr', hx⟩)
        · exact Or.inl (Or.inl hx)
        · exact Or.inl (Or.inr ⟨hne, hx⟩)
        · exact Or.inr ⟨hne, r', hr', hx⟩

theorem foldl_processResult_mem_seen_programmes :
    ∀ (results : List FetchResult) (st : MergeState) (k : String × String × String),
    k ∈ (results.foldl processResult st).seen_programmes ↔
      k ∈ st.seen_programmes ∨ ∃ r ∈ results, k ∈ resultProgKeys r
  | [], st, k => by simp
  | r :: rs, st, k => by
      rw [List.foldl_cons, foldl_processResult_mem_seen_programmes rs _ k,
        processResult_mem_seen_programmes]
      simp only [List.mem_cons]
      constructor
      · rintro ((hk | hk) | ⟨r', hr', hk⟩)
        · exact Or.inl hk
        · exact Or.inr ⟨r, Or.inl rfl, hk⟩
        · exact Or.inr ⟨r', Or.inr hr', hk⟩
      · rintro (hk | ⟨r', rfl | hr', hk⟩)
        · exact Or.inl (Or.inl hk)
        · exact Or.inl (Or.inr hk)
        · exact Or.inr ⟨r', hr', hk⟩

theorem combine_mem_seen_channels (results : List FetchResult) (x : String) :
    x ∈ (combine_epg_files results).seen_channels ↔
      x ≠ "" ∧ ∃ r ∈ results, x ∈ resultChannelIds r := by
  rw [combine_epg_files, foldl_processResult_mem_seen_channels]
  simp [initState]

theorem combine_mem_seen_programmes (results : List FetchResult)
    (k : String × String × String) :
    k ∈ (combine_epg_files results).seen_programmes ↔
      ∃ r ∈ results, k ∈ resultProgKeys r := by
  rw [combine_epg_files, foldl_processResult_mem_seen_programmes]
  simp [initState]

/-! ### Idempotence and failure-branch lemmas -/

theorem processResult_idem (st : MergeState) (r : FetchResult)
    (h : errorTruthy r = false) :
    processResult (processResult st r) r = processResult st r := by
  obtain ⟨name, root, error⟩ := r
  simp only [processResult, h, Bool.false_eq_true, if_false]
  cases root with
  | none => rfl
  | some root =>
      show (root.findall "programme").foldl addProgramme
          ((root.findall "channel").foldl addChannel
            ((root.findall "programme").foldl addProgramme
              ((root.findall "channel").foldl addChannel st))) =
        (root.findall "programme").foldl addProgramme
          ((root.findall "channel").foldl addChannel st)
      have hch : ∀ e ∈ root.findall "channel",
          chanKey e = "" ∨ chanKey e ∈
            ((root.findall "programme").foldl addProgramme
              ((root.findall "channel").foldl addChannel st)).seen_channels := by
        intro e he
        by_cases hne : chanKey e = ""
        · exact Or.inl hne
        · refine Or.inr ?_
          rw [foldl_addProgramme_seen_channels, foldl_addChannel_mem_seen]
          exact Or.inr ⟨hne, e, he, rfl⟩
      have hpr : ∀ e ∈ root.findall "programme",
          progKey e ∈
            ((root.findall "programme").foldl addProgramme
              ((root.findall "channel").foldl addChannel st)).seen_programmes := by
        intro e he
        rw [foldl_addProgramme_mem_seen]
        exact Or.inr ⟨e, he, rfl⟩
      rw [foldl_addChannel_noop _ _ hch, foldl_addProgramme_noop _ _ hpr]

theorem processResult_failed (st : MergeState) (r : FetchResult) (msg : String)
    (herr : r.error = some msg) (hne : msg ≠ "") :
    processResult st r =
      { st with failed_sources := st.failed_sources ++ [(r.name, msg)] } := by
  have ht : errorTruthy r = true := by
    unfold errorTruthy
    rw [herr]
    exact bne_iff_ne.mpr hne
  unfold processResult
  rw [if_pos ht, herr]
  rfl

/-! ### Concrete elements and results for the spec scenarios -/

/-- A channel element carrying only an `id` attribute. -/
def chanEl (id : String) : Element :=
  .mk "channel" [("id", id)] "" [] ""

/-- A programme element carrying its three key attributes. -/
def progEl (c s t : String) : Element :=
  .mk "programme" [("channel", c), ("start", s), ("stop", t)] "" [] ""

/-- A `tv` document with the given children. -/
def tvDoc (children : List Element) : Element :=
  .mk "tv" [] "" children ""

/-- Source A of the spec scenario: channels with ids 1 and 2. -/
def resA : FetchResult :=
  ⟨"A", some (tvDoc [chanEl "1", chanEl "2"]), none⟩

/-- Source B of the spec scenario: channels with ids 2 and 3. -/
def resB : FetchResult :=
  ⟨"B", some (tvDoc [chanEl "2", chanEl "3"]), none⟩

/-- Source A failing with a network error. -/
def resAfail : FetchResult :=
  ⟨"A", none, some "network error"⟩

/-- A programme with none of its three key attributes, distinguishable
from `blankProg2` by its text. -/
def blankProg1 : Element :=
  .mk "programme" [] "p1" [] ""

/-- A second attribute-less programme. -/
def blankProg2 : Element :=
  .mk "programme" [] "p2" [] ""

/-- A source whose document holds two distinct attribute-less programmes. -/
def resBlankProgs : FetchResult :=
  ⟨"S", some (tvDoc [blankProg1, blankProg2]), none⟩

/-- A source with one channel followed by one programme. -/
def resS1 : FetchResult :=
  ⟨"S1", some (tvDoc [chanEl "c1", progEl "X" "20240101" "20240102"]), none⟩

/-- A later source with one channel only. -/
def resS2 : FetchResult :=
  ⟨"S2", some (tvDoc [chanEl "c2"]), none⟩

/-! ### Remaining helper lemmas -/

theorem fetchParsed_exclusive (name : String) (parsed : Except String Element) :
    ((fetchParsed name parsed).root = none ∧
      (fetchParsed name parsed).error.isSome = true) ∨
    ((fetchParsed name parsed).root.isSome = true ∧
      (fetchParsed name parsed).error = none) := by
  cases parsed with
  | error msg => exact Or.inl ⟨rfl, rfl⟩
  | ok root => exact Or.inr ⟨rfl, rfl⟩

theorem fetchParse_exclusive (parseXML : List Nat → Except String Element)
    (name : String) (data : Except String (List Nat)) :
    ((fetchParse parseXML name data).root = none ∧
      (fetchParse parseXML name data).error.isSome = true) ∨
    ((fetchParse parseXML name data).root.isSome = true ∧
      (fetchParse parseXML name data).error = none) := by
  cases data with
  | error msg => exact Or.inl ⟨rfl, rfl⟩
  | ok bytes => exact fetchParsed_exclusive name (parseXML bytes)

theorem chanKey_eq_of_lookup (e : Element) (v : String)
    (h : e.lookupAttr "id" = some v) : chanKey e = v := by
  unfold chanKey Element.get
  rw [h]

theorem chanKey_of_lookup_none (e : Element)
    (h : e.lookupAttr "id" = none) : chanKey e = "" := by
  unfold chanKey Element.get
  rw [h]

theorem ne_append_singleton {α : Type} (l : List α) (a : α) :
    l ≠ l ++ [a] := by
  intro h
  have h2 := congrArg List.length h
  simp at h2

theorem serialize_eq (e : Element) :
    e.serialize =
      "<" ++ e.tag ++ serializeAttrs e.attrs ++
        (if e.text.isEmpty && e.children.isEmpty then " />"
         else ">" ++ escapeCdata e.text ++
           String.join (e.children.map Element.serialize) ++
           "</" ++ e.tag ++ ">") ++
        escapeCdata e.tail := by
  cases e with
  | mk tag attrs text children tail =>
      rw [Element.serialize]
      simp only [Element.tag, Element.attrs, Element.text, Element.children,
        Element.tail, List.attach_map_val]

/-! ### Claim theorems -/

/-- C1: in every state the merge produces, no two channel children share
the same id key and no two programme children share the same
(channel, start, stop) key; and the combined child sequence only ever
grows at the end, so entities stay in the order they were first accepted:
the sequence after any earlier portion of the completion order is an
unchanged initial segment of the final one. -/
theorem combine_unique_keys_and_insertion_order
    (results pre suf : List FetchResult) (hsplit : results = pre ++ suf) :
    ((channelsOf (combine_epg_files results).combinedChildren).map chanKey).Nodup ∧
    ((programmesOf (combine_epg_files results).combinedChildren).map progKey).Nodup ∧
    ∃ t, (combine_epg_files results).combinedChildren
        = (combine_epg_files pre).combinedChildren ++ t := by
  have h := mergeInv_combine results
  refine ⟨?_, ?_, ?_⟩
  · rw [h.1]
    exact h.2.2.1
  · rw [h.2.1]
    exact h.2.2.2.1
  · subst hsplit
    rw [combine_append]
    exact foldl_processResult_children_extends suf (combine_epg_files pre)

theorem combine_unique_keys_and_insertion_order_witness :
    ((channelsOf (combine_epg_files [resA, resB]).combinedChildren).map chanKey).Nodup ∧
    ((programmesOf (combine_epg_files [resA, resB]).combinedChildren).map progKey).Nodup ∧
    ∃ t, (combine_epg_files [resA, resB]).combinedChildren
        = (combine_epg_files [resA]).combinedChildren ++ t :=
  combine_unique_keys_and_insertion_order [resA, resB] [resA] [resB] rfl

/-- C2: during the channel loop a channel element is appended to the
combined children exactly when its `id` attribute is present, non-empty
and not yet in the seen-channel set; a channel whose id is missing or
empty leaves the merge state untouched; and consequently no channel
element of any combined output carries an empty key. -/
theorem channel_appended_iff (st : MergeState) (e : Element)
    (results : List FetchResult) :
    ((addChannel st e).combinedChildren = st.combinedChildren ++ [e] ↔
      ∃ v, e.lookupAttr "id" = some v ∧ v ≠ "" ∧ v ∉ st.seen_channels) ∧
    ((e.lookupAttr "id" = none ∨ e.lookupAttr "id" = some "") →
      addChannel st e = st) ∧
    (∀ c ∈ channelsOf (combine_epg_files results).combinedChildren,
      chanKey c ≠ "") := by
  refine ⟨?_, ?_, ?_⟩
  · rw [addChannel_eq]
    split
    next hcond =>
      constructor
      · intro _
        cases hl : e.lookupAttr "id" with
        | none => exact absurd (chanKey_of_lookup_none e hl) hcond.1
        | some v =>
            have hv := chanKey_eq_of_lookup e v hl
            exact ⟨v, rfl, hv ▸ hcond.1, hv ▸ hcond.2⟩
      · intro _
        rfl
    next hcond =>
      constructor
      · intro habs
        exact absurd habs (ne_append_singleton _ _)
      · rintro ⟨v, hl, hvne, hvnotin⟩
        have hv := chanKey_eq_of_lookup e v hl
        exact absurd ⟨hv.symm ▸ hvne, hv.symm ▸ hvnotin⟩ hcond
  · intro hl
    refine addChannel_neg st e (Or.inl ?_)
    rcases hl with hl | hl
    · exact chanKey_of_lookup_none e hl
    · exact chanKey_eq_of_lookup e "" hl
  · intro c hcmem
    have hseen : chanKey c ∈ (combine_epg_files results).seen_channels := by
      rw [← (mergeInv_combine results).1]
      exact List.mem_map_of_mem chanKey hcmem
    exact ((combine_mem_seen_channels results (chanKey c)).mp hseen).1

theorem channel_appended_iff_witness :
    ((addChannel initState (chanEl "1")).combinedChildren
        = initState.combinedChildren ++ [chanEl "1"] ↔
      ∃ v, (chanEl "1").lookupAttr "id" = some v ∧ v ≠ ""
        ∧ v ∉ initState.seen_channels) ∧
    (((chanEl "1").lookupAttr "id" = none ∨ (chanEl "1").lookupAttr "id" = some "") →
      addChannel initState (chanEl "1") = initState) ∧
    (∀ c ∈ channelsOf (combine_epg_files [resA, resB]).combinedChildren,
      chanKey c ≠ "") :=
  channel_appended_iff initState (chanEl "1") [resA, resB]

/-- C3: during the programme loop a programme element is appended exactly
when its composite key (with missing attributes defaulting to the empty
string) is not yet in the seen-programme set; two programmes lacking all
three key attributes collide under ("", "", ""), so of the two distinct
attribute-less programmes in `resBlankProgs` only the first is retained. -/
theorem programme_appended_iff (st : MergeState) (e : Element) :
    ((addProgramme st e).combinedChildren = st.combinedChildren ++ [e] ↔
      progKey e ∉ st.seen_programmes) ∧
    progKey blankProg1 = ("", "", "") ∧
    progKey blankProg2 = ("", "", "") ∧
    (combine_epg_files [resBlankProgs]).combinedChildren = [blankProg1] ∧
    (combine_epg_files [resBlankProgs]).total_programmes = 1 := by
  refine ⟨?_, rfl, rfl, rfl, rfl⟩
  rw [addProgramme_eq]
  split
  next hcond => exact ⟨fun _ => hcond, fun _ => rfl⟩
  next hcond =>
    constructor
    · intro habs
      exact absurd habs (ne_append_singleton _ _)
    · intro hk
      exact absurd hk hcond

theorem programme_appended_iff_witness :
    ((addProgramme initState blankProg1).combinedChildren
        = initState.combinedChildren ++ [blankProg1] ↔
      progKey blankProg1 ∉ initState.seen_programmes) ∧
    progKey blankProg1 = ("", "", "") ∧
    progKey blankProg2 = ("", "", "") ∧
    (combine_epg_files [resBlankProgs]).combinedChildren = [blankProg1] ∧
    (combine_epg_files [resBlankProgs]).total_programmes = 1 :=
  programme_appended_iff initState blankProg1

/-- C4: for a fixed multiset of fetch results the set of accepted channel
ids and the set of accepted programme keys do not depend on the
completion order; in the spec scenario, sources with channel ids
[1, 2] and [2, 3] give the three-element id set 1, 2, 3 under either
completion order. -/
theorem combine_sets_order_independent (results1 results2 : List FetchResult)
    (hperm : results1.Perm results2) :
    (∀ x, x ∈ (combine_epg_files results1).seen_channels ↔
          x ∈ (combine_epg_files results2).seen_channels) ∧
    (∀ k, k ∈ (combine_epg_files results1).seen_programmes ↔
          k ∈ (combine_epg_files results2).seen_programmes) ∧
    (combine_epg_files [resA, resB]).seen_channels = ["1", "2", "3"] ∧
    (combine_epg_files [resB, resA]).seen_channels = ["2", "3", "1"] := by
  refine ⟨?_, ?_, rfl, rfl⟩
  · intro x
    rw [combine_mem_seen_channels, combine_mem_seen_channels]
    constructor
    · rintro ⟨hne, r, hr, hx⟩
      exact ⟨hne, r, hperm.mem_iff.mp hr, hx⟩
    · rintro ⟨hne, r, hr, hx⟩
      exact ⟨hne, r, hperm.mem_iff.mpr hr, hx⟩
  · intro k
    rw [combine_mem_seen_programmes, combine_mem_seen_programmes]
    constructor
    · rintro ⟨r, hr, hk⟩
      exact ⟨r, hperm.mem_iff.mp hr, hk⟩
    · rintro ⟨r, hr, hk⟩
      exact ⟨r, hperm.mem_iff.mpr hr, hk⟩

theorem combine_sets_order_independent_witness :
    (∀ x, x ∈ (combine_epg_files [resA, resB]).seen_channels ↔
          x ∈ (combine_epg_files [resB, resA]).seen_channels) ∧
    (∀ k, k ∈ (combine_epg_files [resA, resB]).seen_programmes ↔
          k ∈ (combine_epg_files [resB, resA]).seen_programmes) ∧
    (combine_epg_files [resA, resB]).seen_channels = ["1", "2", "3"] ∧
    (combine_epg_files [resB, resA]).seen_channels = ["2", "3", "1"] :=
  combine_sets_order_independent [resA, resB] [resB, resA]
    (List.Perm.swap resB resA [])

/-- C5: folding the same successful fetch result into the merge state a
second time leaves the state exactly as after the first pass — the second
pass appends no children, adds no keys, and changes no counter. -/
theorem merge_idempotent (st : MergeState) (r : FetchResult)
    (hsucc : r.error = none) :
    processResult (processResult st r) r = processResult st r := by
  refine processResult_idem st r ?_
  unfold errorTruthy
  rw [hsucc]

theorem merge_idempotent_witness :
    processResult (processResult initState resB) resB
      = processResult initState resB :=
  merge_idempotent initState resB rfl

/-- C6 as stated is false: a fetch result whose error slot holds the
empty string carries an error, yet line 132's truthiness test skips the
failure branch, so nothing is recorded in the failure list (and nothing
is contributed to the document). -/
theorem failure_recording_cex :
    (FetchResult.mk "A" none (some "")).error.isSome = true ∧
    (combine_epg_files [FetchResult.mk "A" none (some "")]).failed_sources = [] ∧
    (combine_epg_files [FetchResult.mk "A" none (some "")]).combinedChildren = [] :=
  ⟨rfl, rfl, rfl⟩

/-- C6 (amended): for every fetch result carrying a non-empty error
message the merger appends (identifier, error) to the failure list and
changes nothing else; a result with an empty error message contributes
nothing and is not recorded.  In the spec scenario where A fails with a
network error and B succeeds, the output holds exactly B's deduplicated
entities and the failure list is exactly A. -/
theorem failure_recording (st : MergeState) (r : FetchResult) (msg : String)
    (herr : r.error = some msg) (hne : msg ≠ "") :
    (processResult st r =
      { st with failed_sources := st.failed_sources ++ [(r.name, msg)] }) ∧
    (combine_epg_files [resAfail, resB]).combinedChildren
        = (combine_epg_files [resB]).combinedChildren ∧
    (combine_epg_files [resAfail, resB]).seen_channels
        = (combine_epg_files [resB]).seen_channels ∧
    (combine_epg_files [resAfail, resB]).seen_programmes
        = (combine_epg_files [resB]).seen_programmes ∧
    (combine_epg_files [resAfail, resB]).failed_sources
        = [("A", "network error")] :=
  ⟨processResult_failed st r msg herr hne, rfl, rfl, rfl, rfl⟩

theorem failure_recording_witness :
    (processResult initState resAfail =
      { initState with failed_sources :=
          initState.failed_sources ++ [(resAfail.name, "network error")] }) ∧
    (combine_epg_files [resAfail, resB]).combinedChildren
        = (combine_epg_files [resB]).combinedChildren ∧
    (combine_epg_files [resAfail, resB]).seen_channels
        = (combine_epg_files [resB]).seen_channels ∧
    (combine_epg_files [resAfail, resB]).seen_programmes
        = (combine_epg_files [resB]).seen_programmes ∧
    (combine_epg_files [resAfail, resB]).failed_sources
        = [("A", "network error")] :=
  failure_recording initState resAfail "network error" rfl (by decide)

/-- C7: for every source name and locator (empty and malformed locators
are exception events), every network or HTTP failure, every decompression
failure and every parse outcome, `fetch_epg` returns a result with
exactly one of the document and the error message present; being a total
function, it models that no exception propagates to the caller. -/
theorem fetch_result_exclusive (gunzip : List Nat → Except String (List Nat))
    (parseXML : List Nat → Except String Element)
    (name url : String) (ev : FetchEvent) :
    ((fetch_epg gunzip parseXML name url ev).root = none ∧
      (fetch_epg gunzip parseXML name url ev).error.isSome = true) ∨
    ((fetch_epg gunzip parseXML name url ev).root.isSome = true ∧
      (fetch_epg gunzip parseXML name url ev).error = none) := by
  cases ev with
  | urlError msg => exact Or.inl ⟨rfl, rfl⟩
  | otherException msg => exact Or.inl ⟨rfl, rfl⟩
  | response body enc => exact fetchParse_exclusive parseXML name _

/-- C8: the file written by `write_xml` is exactly the fixed XML
declaration line, then the fixed DOCTYPE line referencing the XMLTV
document type, then the serialization of the element tree; and that
serialization is the open tag with the root's attributes in order,
followed by its children's serializations in order. -/
theorem write_xml_layout (root : Element) :
    (write_xml root =
      "<?xml version=\"1.0\" encoding=\"UTF-8\"?>\n<!DOCTYPE tv SYSTEM \"xmltv.dtd\">\n"
        ++ root.serialize) ∧
    (root.serialize =
      "<" ++ root.tag ++ serializeAttrs root.attrs ++
        (if root.text.isEmpty && root.children.isEmpty then " />"
         else ">" ++ escapeCdata root.text ++
           String.join (root.children.map Element.serialize) ++
           "</" ++ root.tag ++ ">") ++
        escapeCdata root.tail) :=
  ⟨rfl, serialize_eq root⟩

/-- C10: channels and programmes share the one combined child sequence.
Each processed result appends its accepted channels first and its
accepted programmes second, but a channel accepted from a later result
lands after the programmes of every earlier result: in the two-source
scenario the combined children are channel c1, then a programme, then
channel c2, so channel elements do not all precede programme elements. -/
theorem channels_programmes_share_sequence (st : MergeState) (r : FetchResult) :
    (∃ newC newP,
      (processResult st r).combinedChildren
          = st.combinedChildren ++ newC ++ newP ∧
      (∀ e ∈ newC, e.tag = "channel") ∧
      (∀ e ∈ newP, e.tag = "programme")) ∧
    (combine_epg_files [resS1, resS2]).combinedChildren
        = [chanEl "c1", progEl "X" "20240101" "20240102", chanEl "c2"] ∧
    (progEl "X" "20240101" "20240102").tag = "programme" ∧
    (chanEl "c2").tag = "channel" :=
  ⟨processResult_children st r, rfl, rfl, rfl⟩

theorem channels_programmes_share_sequence_witness :
    (∃ newC newP,
      (processResult initState resS1).combinedChildren
          = initState.combinedChildren ++ newC ++ newP ∧
      (∀ e ∈ newC, e.tag = "channel") ∧
      (∀ e ∈ newP, e.tag = "programme")) ∧
    (combine_epg_files [resS1, resS2]).combinedChildren
        = [chanEl "c1", progEl "X" "20240101" "20240102", chanEl "c2"] ∧
    (progEl "X" "20240101" "20240102").tag = "programme" ∧
    (chanEl "c2").tag = "channel" :=
  channels_programmes_share_sequence initState resS1

/-- C9: after processing any list of fetch results, the channel counter
equals both the number of channel elements appended to the combined tree
and the size of the (duplicate-free) seen-channel set, and likewise for
programmes; moreover each per-element step keeps counter and seen-set
size in lock step, so the equalities hold at every intermediate point of
the merge. -/
theorem combine_totals_consistent (results : List FetchResult)
    (st : MergeState) (e : Element) :
    ((combine_epg_files results).total_channels
        = (channelsOf (combine_epg_files results).combinedChildren).length ∧
     (combine_epg_files results).total_channels
        = (combine_epg_files results).seen_channels.length ∧
     (combine_epg_files results).seen_channels.Nodup ∧
     (combine_epg_files results).total_programmes
        = (programmesOf (combine_epg_files results).combinedChildren).length ∧
     (combine_epg_files results).total_programmes
        = (combine_epg_files results).seen_programmes.length ∧
     (combine_epg_files results).seen_programmes.Nodup) ∧
    (st.total_channels = st.seen_channels.length →
      (addChannel st e).total_channels = (addChannel st e).seen_channels.length) ∧
    (st.total_programmes = st.seen_programmes.length →
      (addProgramme st e).total_programmes
        = (addProgramme st e).seen_programmes.length) := by
  obtain ⟨hc, hp, hnc, hnp, htc, htp⟩ := mergeInv_combine results
  refine ⟨⟨?_, htc, hnc, ?_, htp, hnp⟩, ?_, ?_⟩
  · rw [htc, ← hc, List.length_map]
  · rw [htp, ← hp, List.length_map]
  · intro hlen
    rw [addChannel_eq]
    split
    · show st.total_channels + 1 = (st.seen_channels ++ [chanKey e]).length
      rw [List.length_append, hlen]
      rfl
    · exact hlen
  · intro hlen
    rw [addProgramme_eq]
    split
    · show st.total_programmes + 1 = (st.seen_programmes ++ [progKey e]).length
      rw [List.length_append, hlen]
      rfl
    · exact hlen

theorem combine_totals_consistent_witness :
    ((combine_epg_files [resA, resB]).total_channels
        = (channelsOf (combine_epg_files [resA, resB]).combinedChildren).length ∧
     (combine_epg_files [resA, resB]).total_channels
        = (combine_epg_files [resA, resB]).seen_channels.length ∧
     (combine_epg_files [resA, resB]).seen_channels.Nodup ∧
     (combine_epg_files [resA, resB]).total_programmes
        = (programmesOf (combine_epg_files [resA, resB]).combinedChildren).length ∧
     (combine_epg_files [resA, resB]).total_programmes
        = (combine_epg_files [resA, resB]).seen_programmes.length ∧
     (combine_epg_files [resA, resB]).seen_programmes.Nodup) ∧
    (initState.total_channels = initState.seen_channels.length →
      (addChannel initState (chanEl "9")).total_channels
        = (addChannel initState (chanEl "9")).seen_channels.length) ∧
    (initState.total_programmes = initState.seen_programmes.length →
      (addProgramme initState (chanEl "9")).total_programmes
        = (addProgramme initState (chanEl "9")).seen_programmes.length) :=
  combine_totals_consistent [resA, resB] initState (chanEl "9")
